import Mathlib

/-!
Shallow embedding of `src/day01/part2.py`, a dial simulator: each input line
is a direction character followed by a magnitude; the dial starts at 50 and
each unit step updates it as `dial = (dial + dir + 100) % 100`, counting the
steps at which the dial equals 0.  In Lean, `%` on `Int` is `Int.emod`, which
for the positive modulus 100 agrees with Python's floored `%`.
-/

set_option maxRecDepth 40000

namespace Day01Part2

/-- Characters stripped by Python's `int()` as whitespace (ASCII subset;
the model covers ASCII input lines, which is all the format uses). -/
def isPySpace (c : Char) : Bool :=
  c == ' ' || c == '\t' || c == '\n' || c == '\r' || c == '\x0b' || c == '\x0c'

/-- Numeric value of a decimal digit character. -/
def digitVal (c : Char) : Nat := c.toNat - 48

/-- Digits after the first one, as accepted by Python's `int()`: decimal
digits with single underscores allowed between digits, accumulating the
base-10 value into `acc`. -/
def pyDigitsAux : Nat → List Char → Option Nat
  | acc, [] => some acc
  | acc, [c] => if c.isDigit then some (acc * 10 + digitVal c) else none
  | acc, c :: d :: cs =>
    if c.isDigit then pyDigitsAux (acc * 10 + digitVal c) (d :: cs)
    else if c == '_' && d.isDigit then pyDigitsAux (acc * 10 + digitVal d) cs
    else none

/-- A nonempty digit group: the first character must be a digit. -/
def pyDigits : List Char → Option Nat
  | [] => none
  | c :: cs => if c.isDigit then pyDigitsAux (digitVal c) cs else none

/-- Body of Python's `int()` after whitespace stripping: an optional sign
followed by a nonempty digit group. -/
def pyIntCore : List Char → Option Int
  | [] => none
  | c :: cs =>
    if c = '+' then (pyDigits cs).map (fun n => (n : Int))
    else if c = '-' then (pyDigits cs).map (fun n => -(n : Int))
    else (pyDigits (c :: cs)).map (fun n => (n : Int))

/-- Model of Python's `int(s)` on an ASCII string: strip surrounding
whitespace, then parse an optional sign and a digit group. -/
def pyInt (s : List Char) : Option Int :=
  pyIntCore (((s.dropWhile isPySpace).reverse.dropWhile isPySpace).reverse)

/-- Direction from the first character of a line (part2.py lines 8-11):
exactly the character L gives -1, anything else gives 1. -/
def dirOf (c : Char) : Int := if c = 'L' then -1 else 1

/-- Parsing of one line (part2.py lines 8-12): the first character is the
direction (`line[0]`, an error on an empty line) and the rest is the
magnitude `int(line[1:])` (an error when unparseable). -/
def parseLine : List Char → Option (Int × Int)
  | [] => none
  | c :: cs => (pyInt cs).map (fun amount => (dirOf c, amount))

/-- One unit transition of the dial (part2.py line 14). -/
def stepFn (dir dial : Int) : Int := (dial + dir + 100) % 100

/-- The inner step loop (part2.py lines 13-16): `n` unit steps applied to
the state `(dial, zero_count)`, incrementing the counter each time the new
dial value is 0.  Python's `range(amount)` is empty for `amount ≤ 0`, so the
caller passes `amount.toNat` steps. -/
def runSteps (dir : Int) : Nat → Int × Nat → Int × Nat
  | 0, s => s
  | n + 1, s =>
    let dial' := stepFn dir s.1
    runSteps dir n (dial', if dial' = 0 then s.2 + 1 else s.2)

/-- Processing of one input line (part2.py lines 8-16). -/
def runLine (s : Int × Nat) (line : List Char) : Option (Int × Nat) :=
  match parseLine line with
  | none => none
  | some (dir, amount) => some (runSteps dir amount.toNat s)

/-- The main loop (part2.py lines 7-16) started from an arbitrary state;
an error on any line aborts the run. -/
def runLinesFrom (s : Int × Nat) : List (List Char) → Option (Int × Nat)
  | [] => some s
  | line :: rest =>
    match runLine s line with
    | none => none
    | some s' => runLinesFrom s' rest

/-- The whole program on a list of input lines: dial starts at 50 and
zero_count at 0 (part2.py lines 4-5); the second component of the result is
the printed answer (part2.py line 18). -/
def runLines (lines : List (List Char)) : Option (Int × Nat) :=
  runLinesFrom (50, 0) lines

/-- Parsing of every line, in order; fails when any line fails. -/
def parseAll : List (List Char) → Option (List (Int × Int))
  | [] => some []
  | line :: rest =>
    match parseLine line, parseAll rest with
    | some c, some cs => some (c :: cs)
    | _, _ => none

/-- Running the already-parsed commands in order. -/
def simulate (s : Int × Nat) : List (Int × Int) → Int × Nat
  | [] => s
  | (dir, amount) :: cmds => simulate (runSteps dir amount.toNat s) cmds

/-- The successive dial positions over `n` unit steps from `dial`. -/
def trace (dial dir : Int) : Nat → List Int
  | 0 => []
  | n + 1 => stepFn dir dial :: trace (stepFn dir dial) dir n

/-- The dial position after `n` unit steps from `dial`. -/
def endDial (dial dir : Int) : Nat → Int
  | 0 => dial
  | n + 1 => endDial (stepFn dir dial) dir n

/-- The concatenation of the per-command step traces, each command starting
where the previous one ended. -/
def fullTrace (dial : Int) : List (Int × Int) → List Int
  | [] => []
  | (dir, amount) :: cmds =>
    trace dial dir amount.toNat ++ fullTrace (endDial dial dir amount.toNat) cmds

/-- The dial position after all commands. -/
def traceEnd (dial : Int) : List (Int × Int) → Int
  | [] => dial
  | (dir, amount) :: cmds => traceEnd (endDial dial dir amount.toNat) cmds

/-- The `<char><digits>` shape of a valid line: one direction character
followed by at least one decimal digit and nothing else. -/
def lineHasShape (l : List Char) : Bool :=
  match l with
  | [] => false
  | _ :: cs => !cs.isEmpty && cs.all Char.isDigit

/-- A decimal digit is not one of the whitespace characters. -/
lemma not_space_of_digit (c : Char) (h : c.isDigit = true) : isPySpace c = false := by
  by_contra hc
  rw [Bool.not_eq_false, isPySpace] at hc
  simp only [Bool.or_eq_true, beq_iff_eq] at hc
  rcases hc with ((((rfl | rfl) | rfl) | rfl) | rfl) | rfl <;> exact absurd h (by decide)

/-- Stripping whitespace from an all-digit list leaves it unchanged. -/
lemma dropWhile_space_of_digits (l : List Char) (h : ∀ c ∈ l, c.isDigit = true) :
    l.dropWhile isPySpace = l := by
  cases l with
  | nil => rfl
  | cons c t =>
    rw [List.dropWhile_cons, not_space_of_digit c (h c (by simp))]
    simp

/-- On an all-digit tail the digit-group accumulator succeeds. -/
lemma pyDigitsAux_some (cs : List Char) :
    ∀ acc, (∀ c ∈ cs, c.isDigit = true) → ∃ m, pyDigitsAux acc cs = some m := by
  induction cs with
  | nil => exact fun acc _ => ⟨acc, rfl⟩
  | cons c t ih =>
    intro acc h
    cases t with
    | nil => exact ⟨_, by rw [pyDigitsAux, if_pos (h c (by simp))]⟩
    | cons d t' =>
      rw [pyDigitsAux, if_pos (h c (by simp))]
      exact ih _ (fun x hx => h x (by simp [hx]))

/-- A nonempty all-digit list forms a valid digit group. -/
lemma pyDigits_some (cs : List Char) (hne : cs ≠ []) (h : ∀ c ∈ cs, c.isDigit = true) :
    ∃ m, pyDigits cs = some m := by
  cases cs with
  | nil => exact absurd rfl hne
  | cons c t =>
    rw [pyDigits, if_pos (h c (by simp))]
    exact pyDigitsAux_some t _ (fun x hx => h x (by simp [hx]))

/-- A digit is not a sign character. -/
lemma digit_ne_sign (c : Char) (h : c.isDigit = true) : c ≠ '+' ∧ c ≠ '-' := by
  constructor <;> rintro rfl <;> exact absurd h (by decide)

/-- Python's `int()` succeeds on a nonempty all-digit string and returns the
(non-negative) value of the digit group. -/
lemma pyInt_some_of_digits (cs : List Char) (hne : cs ≠ []) (h : ∀ c ∈ cs, c.isDigit = true) :
    ∃ m : Nat, pyInt cs = some (m : Int) := by
  have hrev : ∀ c ∈ cs.reverse, c.isDigit = true := fun c hc => h c (List.mem_reverse.mp hc)
  rw [pyInt, dropWhile_space_of_digits cs h, dropWhile_space_of_digits cs.reverse hrev,
    List.reverse_reverse]
  cases cs with
  | nil => exact absurd rfl hne
  | cons c t =>
    have hd := digit_ne_sign c (h c (by simp))
    rw [pyIntCore, if_neg hd.1, if_neg hd.2]
    obtain ⟨m, hm⟩ := pyDigits_some (c :: t) (by simp) h
    exact ⟨m, by rw [hm]; rfl⟩

/-- A line of the `<char><digits>` shape parses to a direction given by its
first character and a non-negative magnitude. -/
lemma parseLine_some_of_shape (l : List Char) (h : lineHasShape l = true) :
    ∃ (c : Char) (cs : List Char) (m : Nat),
      l = c :: cs ∧ parseLine l = some (dirOf c, (m : Int)) := by
  cases l with
  | nil => exact absurd h (by decide)
  | cons c cs =>
    rw [lineHasShape] at h
    simp only [Bool.and_eq_true, Bool.not_eq_true', List.all_eq_true] at h
    obtain ⟨h1, h2⟩ := h
    have hne : cs ≠ [] := by
      intro hnil
      rw [hnil] at h1
      exact absurd h1 (by decide)
    obtain ⟨m, hm⟩ := pyInt_some_of_digits cs hne h2
    exact ⟨c, cs, m, rfl, by rw [parseLine, hm]; rfl⟩

/-- When every line has the valid shape, the whole input parses. -/
lemma parseAll_some_of_shape (lines : List (List Char))
    (h : ∀ l ∈ lines, lineHasShape l = true) :
    ∃ cmds, parseAll lines = some cmds := by
  induction lines with
  | nil => exact ⟨[], rfl⟩
  | cons line rest ih =>
    obtain ⟨c, cs, m, _, hp⟩ := parseLine_some_of_shape line (h line (by simp))
    obtain ⟨cmds, hc⟩ := ih (fun l hl => h l (by simp [hl]))
    exact ⟨(dirOf c, (m : Int)) :: cmds, by rw [parseAll, hp, hc]⟩

/-- The inner step loop computes the end position and adds the number of
zero entries of the step trace to the counter. -/
lemma runSteps_eq (dir : Int) :
    ∀ (n : Nat) (dial : Int) (zc : Nat),
      runSteps dir n (dial, zc) = (endDial dial dir n, zc + (trace dial dir n).count 0) := by
  intro n
  induction n with
  | zero => intro dial zc; simp [runSteps, endDial, trace]
  | succ n ih =>
    intro dial zc
    rw [runSteps]
    simp only
    rw [ih, endDial, trace, List.count_cons]
    by_cases h0 : stepFn dir dial = 0
    · simp only [h0, if_true, beq_self_eq_true, Prod.mk.injEq, true_and]
      omega
    · simp only [h0, if_false, Prod.mk.injEq, true_and]
      rw [if_neg (by simpa using h0)]
      omega

/-- Running parsed commands computes the end position and counts the zero
entries of the full concatenated trace. -/
lemma simulate_eq (cmds : List (Int × Int)) :
    ∀ (dial : Int) (zc : Nat),
      simulate (dial, zc) cmds = (traceEnd dial cmds, zc + (fullTrace dial cmds).count 0) := by
  induction cmds with
  | nil => intro dial zc; simp [simulate, traceEnd, fullTrace]
  | cons cmd cmds ih =>
    intro dial zc
    obtain ⟨dir, amount⟩ := cmd
    rw [simulate, runSteps_eq, ih, traceEnd, fullTrace, List.count_append]
    simp only [Prod.mk.injEq, true_and]
    omega

/-- When every line parses, the main loop runs the parsed commands. -/
lemma runLinesFrom_eq_of_parse (lines : List (List Char)) :
    ∀ (s : Int × Nat) (cmds : List (Int × Int)), parseAll lines = some cmds →
      runLinesFrom s lines = some (simulate s cmds) := by
  induction lines with
  | nil =>
    intro s cmds h
    rw [parseAll] at h
    cases h
    rfl
  | cons line rest ih =>
    intro s cmds h
    rw [parseAll] at h
    cases hp : parseLine line with
    | none => rw [hp] at h; exact absurd h (by simp)
    | some c =>
      cases hr : parseAll rest with
      | none => rw [hp, hr] at h; exact absurd h (by simp)
      | some cs =>
        rw [hp, hr] at h
        cases h
        obtain ⟨dir, amount⟩ := c
        rw [runLinesFrom, runLine, hp, simulate]
        exact ih _ cs hr

/-- The main loop fails exactly when some line fails to parse. -/
lemma runLinesFrom_none_iff (lines : List (List Char)) :
    ∀ s : Int × Nat,
      runLinesFrom s lines = none ↔ ∃ l ∈ lines, parseLine l = none := by
  induction lines with
  | nil => intro s; simp [runLinesFrom]
  | cons line rest ih =>
    intro s
    rw [runLinesFrom, runLine]
    cases hp : parseLine line with
    | none => simp [hp]
    | some c =>
      obtain ⟨dir, amount⟩ := c
      simp only
      rw [ih]
      simp [hp]

/-- C1: on every valid input — each line a direction character followed by
digits parsing to a non-negative integer — the program succeeds and the
count it reports equals the number of unit steps, across all commands in
file order, at which the dial position (starting at 50 and updated by
(dial + delta + 100) mod 100 per step) equals exactly 0. -/
theorem c1_count_equals_zero_steps (lines : List (List Char))
    (h : ∀ l ∈ lines, lineHasShape l = true) :
    ∃ cmds, parseAll lines = some cmds ∧
      runLines lines = some (traceEnd 50 cmds, (fullTrace 50 cmds).count 0) := by
  obtain ⟨cmds, hc⟩ := parseAll_some_of_shape lines h
  refine ⟨cmds, hc, ?_⟩
  rw [runLines, runLinesFrom_eq_of_parse lines (50, 0) cmds hc, simulate_eq]
  simp

/-- Witness for C1 at the one-line input R25. -/
theorem c1_witness :
    ∃ cmds, parseAll [['R', '2', '5']] = some cmds ∧
      runLines [['R', '2', '5']] = some (traceEnd 50 cmds, (fullTrace 50 cmds).count 0) :=
  c1_count_equals_zero_steps [['R', '2', '5']] (by decide)

/-- C2: the dial stays in [0, 99]: it starts at 50, which is in range, and
every unit transition with delta in {-1, +1} maps a value in [0, 99] back
into [0, 99]. -/
theorem c2_dial_range_invariant :
    ((0 : Int) ≤ 50 ∧ (50 : Int) ≤ 99) ∧
      ∀ dial delta : Int, 0 ≤ dial → dial ≤ 99 → (delta = -1 ∨ delta = 1) →
        0 ≤ stepFn delta dial ∧ stepFn delta dial ≤ 99 := by
  refine ⟨by norm_num, ?_⟩
  intro dial delta h0 h1 hd
  rw [stepFn]
  rcases hd with rfl | rfl <;> omega

/-- Witness for C2 at dial 0 stepping left. -/
theorem c2_witness : 0 ≤ stepFn (-1) 0 ∧ stepFn (-1) 0 ≤ 99 :=
  c2_dial_range_invariant.2 0 (-1) (by decide) (by decide) (Or.inl rfl)

/-- C3 counterexample: the line L-5 violates the char-digits shape, yet the
run on it raises no error, because Python's int accepts a sign; this refutes
the claimed equivalence between failing and containing a shape-violating
line. -/
theorem c3_counterexample :
    ¬ (runLines [['L', '-', '5']] = none ↔
        ∃ l ∈ [['L', '-', '5']], lineHasShape l = false) := by decide

/-- C3 (amended): the run fails exactly when some line fails to parse, that
is, it is empty or its magnitude part is rejected by the integer parser; in
particular on every input whose lines all have the char-digits shape no
error is raised.  Lines violating the shape in a way the integer parser
still accepts (a sign or surrounding whitespace, as in L-5) do not fail. -/
theorem c3_failure_characterization (lines : List (List Char)) :
    (runLines lines = none ↔ ∃ l ∈ lines, parseLine l = none) ∧
      ((∀ l ∈ lines, lineHasShape l = true) → runLines lines ≠ none) := by
  constructor
  · exact runLinesFrom_none_iff lines (50, 0)
  · intro h hn
    obtain ⟨cmds, hc⟩ := parseAll_some_of_shape lines h
    rw [runLines, runLinesFrom_eq_of_parse lines (50, 0) cmds hc] at hn
    exact Option.noConfusion hn

/-- Witness for C3 at the one-line input R7. -/
theorem c3_witness : runLines [['R', '7']] ≠ none :=
  (c3_failure_characterization [['R', '7']]).2 (by decide)

/-- C4: whenever a line parses, its per-step delta is -1 exactly when the
first character is L, and every other first character yields delta +1; the
mapping is the single function dirOf applied to every line. -/
theorem c4_direction_mapping (line : List Char) (d a : Int)
    (h : parseLine line = some (d, a)) :
    ∃ (c : Char) (cs : List Char), line = c :: cs ∧ d = dirOf c ∧
      (d = -1 ↔ c = 'L') ∧ (c ≠ 'L' → d = 1) := by
  cases line with
  | nil => rw [parseLine] at h; exact Option.noConfusion h
  | cons c cs =>
    rw [parseLine] at h
    cases hp : pyInt cs with
    | none => rw [hp] at h; exact Option.noConfusion h
    | some m =>
      rw [hp] at h
      simp only [Option.map_some', Option.some.injEq, Prod.mk.injEq] at h
      obtain ⟨hd, ha⟩ := h
      subst hd
      refine ⟨c, cs, rfl, rfl, ?_, ?_⟩
      · rw [dirOf]
        by_cases hc : c = 'L'
        · simp [hc]
        · rw [if_neg hc]
          constructor
          · intro h1; exact absurd h1 (by decide)
          · intro h1; exact absurd h1 hc
      · intro hc; rw [dirOf, if_neg hc]

/-- Witness for C4 at the line X3, whose direction character is neither L
nor R. -/
theorem c4_witness :
    ∃ (c : Char) (cs : List Char), ['X', '3'] = c :: cs ∧ (1 : Int) = dirOf c ∧
      ((1 : Int) = -1 ↔ c = 'L') ∧ (c ≠ 'L' → (1 : Int) = 1) :=
  c4_direction_mapping ['X', '3'] 1 3 (by decide)

/-- C5: the command L50 from the initial state (dial 50, count 0) visits 0
exactly once over its 50 unit steps, at the 50th and final step, counts one
crossing and leaves the dial at 0. -/
theorem c5_l50_boundary :
    runLine (50, 0) ['L', '5', '0'] = some (0, 1) ∧
      (trace 50 (-1) 50).length = 50 ∧
      (trace 50 (-1) 50).count 0 = 1 ∧
      (trace 50 (-1) 50).getLast? = some 0 := by decide

/-- C6: for every dial in [0, 99] and delta in {-1, +1} the modulo operand
dial + delta + 100 is non-negative, and the update equals the floored
modulo of dial + delta by 100, a non-negative value. -/
theorem c6_modulo_offset (dial delta : Int) (h0 : 0 ≤ dial) (h1 : dial ≤ 99)
    (hd : delta = -1 ∨ delta = 1) :
    0 ≤ dial + delta + 100 ∧
      stepFn delta dial = Int.fmod (dial + delta) 100 ∧
      0 ≤ stepFn delta dial := by
  rw [stepFn, Int.fmod_eq_emod _ (by norm_num)]
  rcases hd with rfl | rfl <;> exact ⟨by omega, by omega, by omega⟩

/-- Witness for C6 at dial 0 stepping left, where the intermediate sum
without the offset would be negative. -/
theorem c6_witness :
    0 ≤ (0 : Int) + -1 + 100 ∧
      stepFn (-1) 0 = Int.fmod ((0 : Int) + -1) 100 ∧
      0 ≤ stepFn (-1) 0 :=
  c6_modulo_offset 0 (-1) (by decide) (by decide) (Or.inl rfl)

/-- C7: on the input L50 then R100, the first command reaches 0 once and
the second returns to 0 after exactly 100 steps, so the program reports 2. -/
theorem c7_two_line_example :
    runLine (50, 0) ['L', '5', '0'] = some (0, 1) ∧
      runLine (0, 1) ['R', '1', '0', '0'] = some (0, 2) ∧
      (trace 0 1 100).length = 100 ∧
      (trace 0 1 100).count 0 = 1 ∧
      runLines [['L', '5', '0'], ['R', '1', '0', '0']] = some (0, 2) := by decide

/-- C8: a command whose magnitude parses to 0 performs no unit transition:
it returns the state unchanged, leaving both the dial and the counter as
they were. -/
theorem c8_zero_magnitude (s : Int × Nat) (line : List Char) (d a : Int)
    (h : parseLine line = some (d, a)) (ha : a = 0) :
    runLine s line = some s := by
  subst ha
  rw [runLine, h]
  rfl

/-- Witness for C8 at the line L0 from the initial state. -/
theorem c8_witness : runLine (50, 0) ['L', '0'] = some (50, 0) :=
  c8_zero_magnitude (50, 0) ['L', '0'] (-1) 0 (by decide) rfl

/-- C9: the simulation is a deterministic function of the input lines:
two runs on equal inputs give equal results, both the final dial position
and the final zero count. -/
theorem c9_deterministic (lines1 lines2 : List (List Char)) (h : lines1 = lines2) :
    runLines lines1 = runLines lines2 := by rw [h]

/-- Witness for C9 on the one-line input R1. -/
theorem c9_witness : runLines [['R', '1']] = runLines [['R', '1']] :=
  c9_deterministic [['R', '1']] [['R', '1']] rfl

/-- C10: a line whose remainder parses to a negative integer, such as L-5,
does not fail: the command performs zero unit steps and returns the state
unchanged. -/
theorem c10_negative_magnitude (s : Int × Nat) (line : List Char) (d a : Int)
    (h : parseLine line = some (d, a)) (ha : a < 0) :
    runLine s line = some s := by
  rw [runLine, h]
  show some (runSteps d a.toNat s) = some s
  rw [Int.toNat_of_nonpos (le_of_lt ha)]
  rfl

/-- Witness for C10 at the line L-5 from the initial state. -/
theorem c10_witness :
    parseLine ['L', '-', '5'] = some (-1, -5) ∧
      runLine (50, 0) ['L', '-', '5'] = some (50, 0) :=
  ⟨by decide, c10_negative_magnitude (50, 0) ['L', '-', '5'] (-1) (-5) (by decide) (by decide)⟩

end Day01Part2
